import Mathlib

/-
  Verification of the content_bot conversation bot: a shallow embedding of
  the ContentData record, its formatting methods (frontmatter, file body,
  filename), the conversation handlers, and the publish step, together
  with theorems about the documented behaviour.
-/

namespace ContentBot

/-! ## Python string primitives (ASCII fragment) -/

/-- One-character lower-casing, modelling Python str.lower on the ASCII
range; non-ASCII letters do not occur in the inputs considered here. -/
def pyLowerChar (c : Char) : Char :=
  if 65 ≤ c.toNat ∧ c.toNat ≤ 90 then Char.ofNat (c.toNat + 32) else c

/-- The whitespace class stripped by str.strip / split by str.split and
matched by the regular-expression class \s, on the ASCII range. -/
def isPySpace (c : Char) : Bool :=
  c.toNat = 32 ∨ c.toNat = 9 ∨ c.toNat = 10 ∨ c.toNat = 13 ∨ c.toNat = 11 ∨ c.toNat = 12

/-- str.lower of a whole string. -/
def pyLower (s : String) : String := String.mk (s.data.map pyLowerChar)

/-- str.strip: remove leading and trailing whitespace. -/
def pyStrip (s : String) : String :=
  String.mk (((s.data.dropWhile isPySpace).reverse.dropWhile isPySpace).reverse)

/-- Digit-run parser used by the int model: all characters must be
decimal digits and there must be at least one. -/
def parseDigits (l : List Char) : Option Nat :=
  if l ≠ [] ∧ l.all Char.isDigit then
    some (l.foldl (fun a c => a * 10 + (c.toNat - 48)) 0)
  else none

/-- Models Python int(s) on decimal string literals: optional surrounding
whitespace, an optional sign, then at least one digit (digit-group
underscores are not modelled).  none models the ValueError raise. -/
def pyInt (s : String) : Option Int :=
  let t := ((s.data.dropWhile isPySpace).reverse.dropWhile isPySpace).reverse
  match t with
  | [] => none
  | c :: cs =>
    if c = '-' then (parseDigits cs).map (fun n => -(n : Int))
    else if c = '+' then (parseDigits cs).map (fun n => (n : Int))
    else (parseDigits (c :: cs)).map (fun n => (n : Int))

/-! ## The ContentData record -/

/-- The ContentData object: the fields set in __init__.  `date` is the
string the constructor formats from the current day (always a non-empty
"YYYY-MM-DD" string). -/
structure ContentData where
  content_type : String
  title : Option String := none
  description : Option String := none
  content : Option String := none
  tags : List String := []
  read_time : Option Int := none
  date : String := "2025-01-01"
deriving DecidableEq, Repr

/-- Python truthiness of an optional string field: None and "" are falsy. -/
def truthyStr : Option String → Bool
  | none => false
  | some s => s != ""

/-- Python truthiness of the optional integer read_time: None and 0 are
falsy. -/
def truthyInt : Option Int → Bool
  | none => false
  | some n => n != 0

/-- The REQUIRED_FIELDS dictionary, looked up with .get(ct, []). -/
def REQUIRED_FIELDS (ct : String) : List String :=
  if ct = "blog" then ["title", "date", "description"]
  else if ct = "essays" then ["title", "date", "description", "readTime"]
  else if ct = "aphorisms" then ["content", "date"]
  else []

/-- ContentData.is_complete: each listed check mirrors one `if` of the
method; `content` is checked unconditionally at the end. -/
def is_complete (r : ContentData) : Bool :=
  let required := REQUIRED_FIELDS r.content_type
  if required.contains "title" && ! truthyStr r.title then false
  else if required.contains "description" && ! truthyStr r.description then false
  else if required.contains "content" && ! truthyStr r.content then false
  else if required.contains "readTime" && ! truthyInt r.read_time then false
  else if ! truthyStr r.content then false
  else true

/-! ## Filename generation -/

/-- Characters kept by re.sub removing everything outside a-z, 0-9,
whitespace and dash. -/
def keepChar (c : Char) : Bool :=
  (97 ≤ c.toNat && c.toNat ≤ 122) || (48 ≤ c.toNat && c.toNat ≤ 57) ||
    isPySpace c || c.toNat = 45

/-- re.sub collapsing each maximal whitespace run to a single dash; the
boolean records whether the previous character belonged to a run. -/
def collapseRuns : Bool → List Char → List Char
  | _, [] => []
  | inRun, c :: cs =>
    if isPySpace c then
      if inRun then collapseRuns true cs else '-' :: collapseRuns true cs
    else c :: collapseRuns false cs

/-- The slug transform of generate_filename: lower-case, strip every
character outside a-z0-9, whitespace and dash, collapse whitespace runs
to single dashes. -/
def slugChars (l : List Char) : List Char :=
  collapseRuns false ((l.map pyLowerChar).filter keepChar)

/-- String-level slug transform. -/
def slugify (s : String) : String := String.mk (slugChars s.data)

/-- str.split() with no argument: whitespace-separated words, empties
dropped; the accumulator holds the current word reversed. -/
def wordsAux : List Char → List Char → List (List Char)
  | [], acc => if acc = [] then [] else [acc.reverse]
  | c :: cs, acc =>
    if isPySpace c then
      if acc = [] then wordsAux cs [] else acc.reverse :: wordsAux cs []
    else wordsAux cs (c :: acc)

/-- str.split() of a string. -/
def pySplit (s : String) : List String := (wordsAux s.data []).map String.mk

/-- str.split(",") worker: split at every comma, keeping empty segments;
the accumulator holds the current segment reversed. -/
def splitCommaAux : List Char → List Char → List String
  | [], acc => [String.mk acc.reverse]
  | c :: cs, acc =>
    if c = ',' then String.mk acc.reverse :: splitCommaAux cs []
    else splitCommaAux cs (c :: acc)

/-- str.split(","): one more segment than there are commas, empty
segments preserved. -/
def pySplitComma (s : String) : List String := splitCommaAux s.data []

/-- ContentData.generate_filename.  The final fallback branch is
unreachable for the three content types; it names the file from a
current-time stamp, modelled here from the record's date string. -/
def generate_filename (r : ContentData) : String :=
  if r.content_type = "blog" || r.content_type = "essays" then
    slugify (r.title.getD "") ++ ".md"
  else if r.content_type = "aphorisms" then
    let first_words := String.intercalate " " ((pySplit (r.content.getD "")).take 3)
    slugify first_words ++ ".md"
  else
    "content-" ++ r.date ++ ".md"

/-- os.path.splitext on a bare filename (no directory separator): the root
part.  The name splits at its last dot unless every character before that
dot is itself a dot (a leading-dot name has no extension). -/
def splitextRootChars (l : List Char) : List Char :=
  match l.reverse.findIdx? (fun c => c = '.') with
  | none => l
  | some k =>
    let i := l.length - 1 - k
    if (l.take i).any (fun c => c ≠ '.') then l.take i else l

/-- ContentData.get_file_extension.  The method reads self.content
directly (None is modelled as ""). -/
def get_file_extension (r : ContentData) : String :=
  let content := r.content.getD ""
  if content.data.contains '<' && content.data.contains '>' &&
      r.content_type != "aphorisms" then "mdx"
  else "md"

/-- ContentData.get_full_filename: splitext the generated name, then
append the computed extension. -/
def get_full_filename (r : ContentData) : String :=
  let base_filename := generate_filename r
  let base_name := String.mk (splitextRootChars base_filename.data)
  base_name ++ "." ++ get_file_extension r

/-! ## Frontmatter -/

/-- Values of the fm_data mapping built by create_frontmatter: strings,
None (a field read before being set), the integer read time, and the tag
list. -/
inductive Val where
  | str : String → Val
  | int : Int → Val
  | null : Val
  | list : List String → Val
deriving DecidableEq, Repr

/-- A Python optional-string field as a frontmatter value: None is
serialized as YAML null. -/
def valOfOptStr : Option String → Val
  | none => Val.null
  | some s => Val.str s

/-- The entries of the fm_data dict built by create_frontmatter, with the
conditions of the method, listed in the sorted key order in which
yaml.dump (default sort_keys) writes them:
content < date < description < readTime < tags < title. -/
def fmEntries (r : ContentData) : List (String × Val) :=
  (if r.content_type = "aphorisms" then [("content", valOfOptStr r.content)] else [])
  ++ [("date", Val.str r.date)]
  ++ (if truthyStr r.description &&
        (r.content_type = "blog" || r.content_type = "essays")
      then [("description", Val.str (r.description.getD ""))] else [])
  ++ (if truthyInt r.read_time && r.content_type = "essays"
      then [("readTime", Val.int (r.read_time.getD 0))] else [])
  ++ (if r.tags != [] then [("tags", Val.list r.tags)] else [])
  ++ (if r.content_type = "blog" || r.content_type = "essays"
      then [("title", valOfOptStr r.title)] else [])

/-- Decimal digits worker, structurally recursive on a fuel bound so that
it evaluates inside the kernel; any fuel above the number suffices. -/
def natCharsAux : Nat → Nat → List Char
  | 0, _ => []
  | fuel + 1, n =>
    if n < 10 then [Char.ofNat (48 + n)]
    else natCharsAux fuel (n / 10) ++ [Char.ofNat (48 + n % 10)]

/-- Decimal digits of a natural number, most significant first. -/
def natChars (n : Nat) : List Char := natCharsAux (n + 1) n

/-- Decimal representation of an integer, as Python str(int) prints it. -/
def intChars (n : Int) : List Char :=
  if n < 0 then '-' :: natChars n.natAbs else natChars n.toNat

/-- One entry of the mapping rendered as block-style YAML lines, as
yaml.dump(default_flow_style=False) prints it for plain scalars: a
`key: value` line for scalars, and a `key:` line followed by one `- item`
line per element for lists. -/
def dumpVal (k : String) (v : Val) : List (List Char) :=
  match v with
  | Val.str s => [k.data ++ ':' :: ' ' :: s.data]
  | Val.int n => [k.data ++ ':' :: ' ' :: intChars n]
  | Val.null => [k.data ++ ':' :: ' ' :: ['n', 'u', 'l', 'l']]
  | Val.list xs => (k.data ++ [':']) :: xs.map (fun x => '-' :: ' ' :: x.data)

/-- All entries of the mapping, in order. -/
def dumpEntries : List (String × Val) → List (List Char)
  | [] => []
  | p :: ps => dumpVal p.1 p.2 ++ dumpEntries ps

/-- Join lines, terminating each with a newline. -/
def joinLinesC : List (List Char) → List Char
  | [] => []
  | l :: ls => l ++ '\n' :: joinLinesC ls

/-- yaml.dump of the mapping (block style, sorted keys, each line
newline-terminated), on the plain-scalar fragment of YAML that the bot's
field values occupy. -/
def yamlDump (ps : List (String × Val)) : String :=
  String.mk (joinLinesC (dumpEntries ps))

/-- ContentData.create_frontmatter: the YAML text wrapped in delimiter
lines, built as the f-string with a leading delimiter line and a trailing
delimiter appended directly after the newline-terminated YAML. -/
def create_frontmatter (r : ContentData) : String :=
  "---\n" ++ yamlDump (fmEntries r) ++ "---"

/-- A single-quote character, used inside the fixed import lines. -/
def sq : String := String.mk [Char.ofNat 39]

/-- First fixed line injected for angle-bracket content. -/
def importLine1 : String :=
  "import Summary from " ++ sq ++ "../../components/Summary.astro" ++ sq ++ ";"

/-- Second fixed line injected for angle-bracket content. -/
def importLine2 : String := "import " ++ sq ++ "uno.css" ++ sq ++ ";"

/-- The text the f-string places between frontmatter and content in the
MDX case. -/
def importMid : String := "\n\n" ++ importLine1 ++ "\n" ++ importLine2 ++ "\n\n"

/-- ContentData.create_file_content: aphorisms are the frontmatter alone;
blog and essays append the content after a blank line, with the two
fixed import lines injected when the content holds both angle brackets. -/
def create_file_content (r : ContentData) : String :=
  let frontmatter := create_frontmatter r
  if r.content_type = "aphorisms" then frontmatter
  else
    let content := r.content.getD ""
    let is_mdx := content.data.contains '<' && content.data.contains '>'
    if is_mdx then frontmatter ++ importMid ++ content
    else frontmatter ++ "\n\n" ++ content

/-! ## Conversation states and handlers -/

/-- Module-level resolution of the conversation-state names: the six
names bound by `range(6)` on line 46 of the source.  Looking up a name
outside this table is a Python NameError, modelled as none. -/
def stateConst (name : String) : Option Nat :=
  if name = "CHOOSING_CONTENT_TYPE" then some 0
  else if name = "ENTERING_TITLE" then some 1
  else if name = "ENTERING_DESCRIPTION" then some 2
  else if name = "ENTERING_CONTENT" then some 3
  else if name = "ENTERING_TAGS" then some 4
  else if name = "CONFIRM" then some 5
  else none

/-- description_entered: store the text as description; for essays ask
for the read time and return ENTERING_READ_TIME (a name line 46 never
binds, so the return resolves to none, a NameError), otherwise return
ENTERING_CONTENT.  The second component is the next conversation state. -/
def description_entered (r : ContentData) (text : String) :
    ContentData × Option Nat :=
  let r2 := { r with description := some text }
  if r2.content_type = "essays" then (r2, stateConst "ENTERING_READ_TIME")
  else (r2, stateConst "ENTERING_CONTENT")

/-- read_time_entered: int(text) inside try.  On success the parsed value
is stored and ENTERING_CONTENT returned; on ValueError the record is
unchanged, the user re-prompted, and ENTERING_READ_TIME returned (again a
name that does not resolve). -/
def read_time_entered (r : ContentData) (text : String) :
    ContentData × Option Nat :=
  match pyInt text with
  | some n => ({ r with read_time := some n }, stateConst "ENTERING_CONTENT")
  | none => (r, stateConst "ENTERING_READ_TIME")

/-- tags_entered: unless the lower-cased input is exactly "skip", split
it on commas and strip each piece; then move to CONFIRM. -/
def tags_entered (r : ContentData) (text : String) :
    ContentData × Option Nat :=
  let r2 :=
    if pyLower text != "skip" then
      { r with tags := (pySplitComma text).map pyStrip }
    else r
  (r2, stateConst "CONFIRM")

/-! ## Publish step -/

/-- Outcome of one git operation: success or a GitCommandError carrying
its message. -/
inductive GitRes where
  | ok : GitRes
  | gitErr : String → GitRes
deriving DecidableEq, Repr

/-- commit_and_push: pull, stage, commit, then push (the push only
attempted when a token is configured), inside a try that catches
GitCommandError, logs it and returns False; True when every operation
ran without error.  Each argument is the outcome the corresponding git
call would have; an erroring call stops the sequence. -/
def commit_and_push (pull stage commitOp push : GitRes)
    (githubToken : String) : Bool :=
  match pull with
  | GitRes.gitErr _ => false
  | GitRes.ok =>
    match stage with
    | GitRes.gitErr _ => false
    | GitRes.ok =>
      match commitOp with
      | GitRes.gitErr _ => false
      | GitRes.ok =>
        if githubToken != "" then
          match push with
          | GitRes.gitErr _ => false
          | GitRes.ok => true
        else true

/-- ConversationHandler.END of the chat framework. -/
def END : Int := -1

/-- What the try block around the publish step in confirm_submission came
to: the file was written and commit_and_push returned True, it returned
False, or some exception escaped to the handler's except clause. -/
inductive PublishOutcome where
  | published : PublishOutcome
  | savedLocally : PublishOutcome
  | raised : String → PublishOutcome
deriving DecidableEq, Repr

/-- confirm_submission: cancel ends at once; otherwise the message
reports full success, partial success (saved locally, not pushed) or the
caught error text, and the handler returns ConversationHandler.END in
every case.  The result is the message shown and the returned state. -/
def confirm_submission (queryData : String) (outcome : PublishOutcome)
    (filename : String) : String × Int :=
  if queryData = "cancel" then ("Content creation canceled.", END)
  else
    match outcome with
    | PublishOutcome.published =>
        ("✅ Content saved and pushed to repository!\nFile: " ++ filename, END)
    | PublishOutcome.savedLocally =>
        ("✅ Content saved locally, but there was an issue pushing to the repository.\nFile: "
          ++ filename, END)
    | PublishOutcome.raised e =>
        ("❌ There was an error saving your content: " ++ e, END)

/-! ## Spec-side definitions

The definitions below are the verification side of the claims: a reading
of "field populated" for the completeness claim, and a line-level parser
for the frontmatter round-trip claim that recovers the key-value mapping
from the generated file body. -/

/-- Spec-side reading of "the field named f is populated" on a record,
Python truthiness of the field the name denotes. -/
def fieldPopulated (r : ContentData) (f : String) : Bool :=
  if f = "title" then truthyStr r.title
  else if f = "description" then truthyStr r.description
  else if f = "content" then truthyStr r.content
  else if f = "readTime" then truthyInt r.read_time
  else if f = "date" then r.date != ""
  else false

/-- A line of the block continuing a list: dash, space, item. -/
def isItem : List Char → Bool
  | c1 :: c2 :: _ => c1 = '-' && c2 = ' '
  | _ => false

/-- The item carried by a list line. -/
def itemStr (l : List Char) : String := String.mk (l.drop 2)

/-- A scalar spelled like an optionally signed decimal integer. -/
def isIntShaped (l : List Char) : Bool :=
  (l.head? == some '-' && l.tail != [] && l.tail.all Char.isDigit) ||
    (l != [] && l.all Char.isDigit)

/-- Numeric value of a digit run. -/
def digitsVal (l : List Char) : Nat :=
  l.foldl (fun a c => a * 10 + (c.toNat - 48)) 0

/-- Parse one scalar: the null word, an integer literal, or a plain
string. -/
def scalarVal (l : List Char) : Val :=
  if l = ['n', 'u', 'l', 'l'] then Val.null
  else if isIntShaped l = true then
    if l.head? = some '-' then Val.int (-(digitsVal l.tail : Int))
    else Val.int (digitsVal l)
  else Val.str (String.mk l)

/-- Shape of one parsed line. -/
inductive PLine where
  | scalar : String → Val → PLine
  | listStart : String → PLine
  | bad : PLine
deriving DecidableEq, Repr

/-- Parse one line: the key runs to the first colon; a line ending right
at the colon opens a list, a colon-space separator carries a scalar. -/
def parseLine (l : List Char) : PLine :=
  let k := l.takeWhile (fun c => c != ':')
  match l.dropWhile (fun c => c != ':') with
  | [':'] => PLine.listStart (String.mk k)
  | ':' :: ' ' :: v => PLine.scalar (String.mk k) (scalarVal v)
  | _ => PLine.bad

/-- Pending list entry while parsing: its key and its items so far,
reversed. -/
def flushP : Option (String × List String) → List (String × Val)
  | none => []
  | some (k, acc) => [(k, Val.list acc.reverse)]

/-- Line-by-line parser for the block: item lines extend the pending
list entry, any other line closes it and contributes its own entry;
a malformed line or an item line with no open list yields none. -/
def parseAux : Option (String × List String) → List (List Char) →
    Option (List (String × Val))
  | pending, [] => some (flushP pending)
  | pending, l :: ls =>
    if isItem l then
      match pending with
      | some (k, acc) => parseAux (some (k, itemStr l :: acc)) ls
      | none => none
    else
      match parseLine l with
      | PLine.scalar k v =>
          (parseAux none ls).map (fun r => flushP pending ++ (k, v) :: r)
      | PLine.listStart k =>
          (parseAux (some (k, [])) ls).map (fun r => flushP pending ++ r)
      | PLine.bad => none

/-- Parse a frontmatter block given as its lines. -/
def parseFM (lines : List (List Char)) : Option (List (String × Val)) :=
  parseAux none lines

/-- One step of line splitting: a newline opens a fresh line, any other
character extends the current first line. -/
def splitStep (c : Char) (acc : List (List Char)) : List (List Char) :=
  if c = '\n' then [] :: acc
  else
    match acc with
    | [] => [[c]]
    | a :: as => (c :: a) :: as

/-- Split a character sequence at newlines (a trailing newline yields a
final empty line, as text lines). -/
def splitLinesC (l : List Char) : List (List Char) := l.foldr splitStep [[]]

/-- Extraction on a list of lines: the lines strictly between an opening
delimiter line and the next delimiter line. -/
def extractLines : List (List Char) → List (List Char)
  | [] => []
  | first :: rest =>
    if first = ['-', '-', '-'] then
      rest.takeWhile (fun l => l != ['-', '-', '-'])
    else []

/-- Extract the leading frontmatter block of a file body: the lines
strictly between the first delimiter line (which must open the body) and
the next delimiter line. -/
def extractFM (s : String) : List (List Char) :=
  extractLines (splitLinesC s.data)

/-- A scalar the plain-YAML fragment serializes and recovers verbatim:
no newline, not the null word, not shaped like an integer literal. -/
def plainScalarB (s : String) : Bool :=
  (! s.data.contains '\n') && (s != "null") && (! isIntShaped s.data)

/-- A usable mapping key: non-empty, no colon, no newline, not opening
with a dash. -/
def keyOKB (k : String) : Bool :=
  (k != "") && (! k.data.contains ':') && (! k.data.contains '\n') &&
    (k.data.head? != some '-')

/-- A list item the block serializes and recovers verbatim. -/
def itemOKB (x : String) : Bool := ! x.data.contains '\n'

/-- Well-formed mapping entry. -/
def wfPairB : String × Val → Bool
  | (k, Val.str s) => keyOKB k && plainScalarB s
  | (k, Val.int _) => keyOKB k
  | (k, Val.null) => keyOKB k
  | (k, Val.list xs) => keyOKB k && xs.all itemOKB

/-- Well-formed mapping. -/
def wfEntriesB (ps : List (String × Val)) : Bool := ps.all wfPairB

/-- Optional string whose value, when present, is a plain scalar. -/
def optPlainB : Option String → Bool
  | none => true
  | some s => plainScalarB s

/-- Record whose field values stay within the plain-YAML fragment the
serializer model covers. -/
def recordWF (r : ContentData) : Bool :=
  plainScalarB r.date && optPlainB r.title && optPlainB r.description &&
    (if r.content_type = "aphorisms" then optPlainB r.content else true) &&
    r.tags.all itemOKB

/-- Characters a finished slug can hold: lower-case letters, digits and
the dash. -/
def goodOut (c : Char) : Bool :=
  (97 ≤ c.toNat && c.toNat ≤ 122) || (48 ≤ c.toNat && c.toNat ≤ 57) ||
    c.toNat = 45

/-! ## Concrete records used to instantiate the theorems -/

/-- A finished essay record. -/
def essayEx : ContentData :=
  { content_type := "essays", title := some "My Post",
    description := some "desc", content := some "Hello",
    tags := ["a", "b"], read_time := some 5, date := "2025-06-01" }

/-- The aphorism record of the scenario. -/
def aphorismEx : ContentData :=
  { content_type := "aphorisms", content := some "Be kind always",
    date := "2025-01-02" }

/-- A blog record whose title has no character surviving the slug
transform. -/
def blogBangTitle : ContentData :=
  { content_type := "blog", title := some "!!!", content := some "body",
    date := "2025-01-02" }

/-- A blog record whose content trips the angle-bracket heuristic. -/
def blogMdxEx : ContentData :=
  { content_type := "blog", title := some "T",
    content := some "<Summary/> hi", date := "2025-01-02" }

/-- An essay record whose read time was entered as 0. -/
def essayZeroRead : ContentData :=
  { content_type := "essays", title := some "My Post",
    description := some "desc", content := some "Hello",
    read_time := some 0, date := "2025-06-01" }

/-! ## Slug lemmas -/

theorem collapseRuns_good (l : List Char) :
    ∀ b c, (∀ x ∈ l, keepChar x = true) → c ∈ collapseRuns b l →
      goodOut c = true := by
  induction l with
  | nil => intro b c _ hc; simp [collapseRuns] at hc
  | cons a as ih =>
    intro b c hall hc
    have ha : keepChar a = true := hall a (by simp)
    have has : ∀ x ∈ as, keepChar x = true := fun x hx => hall x (by simp [hx])
    simp only [collapseRuns] at hc
    by_cases hs : isPySpace a = true
    · rw [if_pos hs] at hc
      cases b with
      | true => exact ih true c has hc
      | false =>
        rcases List.mem_cons.mp hc with h | h
        · subst h; decide
        · exact ih true c has h
    · rw [if_neg hs] at hc
      rcases List.mem_cons.mp hc with h | h
      · subst h
        simp [keepChar, isPySpace, decide_eq_true_eq] at ha hs
        simp [goodOut, decide_eq_true_eq]
        omega
      · exact ih false c has h

theorem goodOut_lower {c : Char} (h : goodOut c = true) : pyLowerChar c = c := by
  simp [goodOut, decide_eq_true_eq] at h
  rw [pyLowerChar, if_neg]
  omega

theorem goodOut_keep {c : Char} (h : goodOut c = true) : keepChar c = true := by
  simp [goodOut, decide_eq_true_eq] at h
  simp [keepChar, isPySpace, decide_eq_true_eq]
  omega

theorem goodOut_notSpace {c : Char} (h : goodOut c = true) :
    isPySpace c = false := by
  simp [goodOut, decide_eq_true_eq] at h
  simp [isPySpace, decide_eq_true_eq]
  omega

theorem collapseRuns_id (l : List Char) (h : ∀ c ∈ l, goodOut c = true) :
    collapseRuns false l = l := by
  induction l with
  | nil => rfl
  | cons a as ih =>
    have ha := goodOut_notSpace (h a (by simp))
    simp [collapseRuns, ha, ih (fun c hc => h c (by simp [hc]))]

theorem map_lower_id (l : List Char) (h : ∀ c ∈ l, goodOut c = true) :
    l.map pyLowerChar = l := by
  induction l with
  | nil => rfl
  | cons a as ih =>
    rw [List.map_cons, goodOut_lower (h a (by simp)),
      ih (fun c hc => h c (by simp [hc]))]

theorem slugChars_good (l : List Char) :
    ∀ c ∈ slugChars l, goodOut c = true := by
  intro c hc
  exact collapseRuns_good _ false c
    (fun x hx => (List.mem_filter.mp hx).2) hc

theorem slugChars_id (l : List Char) (h : ∀ c ∈ l, goodOut c = true) :
    slugChars l = l := by
  unfold slugChars
  rw [map_lower_id l h,
    List.filter_eq_self.mpr (fun c hc => goodOut_keep (h c hc)),
    collapseRuns_id l h]

/-! ## Claim theorems -/

/-- C7: the slug transform of generate_filename (lower-case, strip
characters outside lower letters, digits, whitespace and dash, collapse
whitespace runs to single dashes) is idempotent on every string. -/
theorem c7_slugify_idempotent (x : String) :
    slugify (slugify x) = slugify x :=
  congrArg String.mk (slugChars_id _ (slugChars_good x.data))

/-- C1: the essay read-time flow cannot run: line 46 never binds the
state name ENTERING_READ_TIME, so entering a description for an essay
(and likewise failing the integer parse of a read time) resolves an
undefined name — a NameError — instead of reaching the read-time state;
the handler logic otherwise matches the spec (successful parse stores
the value and moves on, a failed parse leaves the record unchanged). -/
theorem c1_entering_read_time_undefined :
    stateConst "ENTERING_READ_TIME" = none ∧
    description_entered essayEx "My description" =
      ({ essayEx with description := some "My description" }, none) ∧
    read_time_entered essayEx "abc" = (essayEx, none) ∧
    read_time_entered essayEx "5" =
      ({ essayEx with read_time := some 5 }, some 3) := by decide

/-- C2: is_complete is true exactly when every field of the content
type's required set is populated (Python truthiness) and content is
non-empty, for any record whose date (set by the constructor) is
non-empty; in particular an essay missing readTime is incomplete. -/
theorem c2_is_complete_iff :
    (∀ r : ContentData, r.date ≠ "" →
      (is_complete r = true ↔
        ((REQUIRED_FIELDS r.content_type).all (fieldPopulated r) = true ∧
          truthyStr r.content = true))) ∧
    (∀ r : ContentData, r.content_type = "essays" → r.read_time = none →
      is_complete r = false) := by
  constructor
  · intro r hd
    have hdb : (r.date != "") = true := by simp [hd]
    by_cases hb : r.content_type = "blog"
    · simp [is_complete, REQUIRED_FIELDS, fieldPopulated, hb, hdb]
      cases truthyStr r.title <;> cases truthyStr r.description <;>
        cases truthyStr r.content <;> simp_all
    · by_cases he : r.content_type = "essays"
      · simp [is_complete, REQUIRED_FIELDS, fieldPopulated, he, hdb]
        cases truthyStr r.title <;> cases truthyStr r.description <;>
          cases truthyStr r.content <;> cases truthyInt r.read_time <;> simp_all
      · by_cases ha : r.content_type = "aphorisms"
        · simp [is_complete, REQUIRED_FIELDS, fieldPopulated, ha, hb, he, hdb]
        · simp [is_complete, REQUIRED_FIELDS, fieldPopulated, ha, hb, he]
  · intro r hct hrt
    simp [is_complete, REQUIRED_FIELDS, hct, truthyInt, hrt]

/-- C4: tags_entered leaves the tags unchanged (empty) when the
lower-cased input is "skip", and otherwise sets them to the comma-split,
whitespace-stripped pieces, empty segments preserved; "a, b ,c" gives
tags a, b, c. -/
theorem c4_tags_entered :
    (∀ (r : ContentData) (s : String), pyLower s = "skip" →
      tags_entered r s = (r, some 5)) ∧
    (∀ (r : ContentData) (s : String), pyLower s ≠ "skip" →
      tags_entered r s =
        ({ r with tags := (pySplitComma s).map pyStrip }, some 5)) ∧
    (tags_entered { content_type := "blog" } "a, b ,c").1.tags =
      ["a", "b", "c"] ∧
    (tags_entered { content_type := "blog" } "SkIp").1.tags = [] ∧
    (tags_entered { content_type := "blog" } "a,, c").1.tags =
      ["a", "", "c"] := by
  refine ⟨?_, ?_, by decide, by decide, by decide⟩
  · intro r s h
    simp [tags_entered, h, stateConst]
  · intro r s h
    simp [tags_entered, h, stateConst]

/-- C5: for blog and essay records the file body carries the two fixed
injected lines between frontmatter and content exactly when the content
holds both angle brackets, in which case the extension is mdx, otherwise
the body is frontmatter, blank line, content with extension md; an
aphorism record always gets extension md. -/
theorem c5_mdx_heuristic :
    (∀ (r : ContentData) (c : String),
      (r.content_type = "blog" ∨ r.content_type = "essays") →
      r.content = some c →
      (('<' ∈ c.data ∧ '>' ∈ c.data →
        create_file_content r =
          create_frontmatter r ++ "\n\n" ++ importLine1 ++
            "\n" ++ importLine2 ++ "\n\n" ++ c ∧
        get_file_extension r = "mdx") ∧
      (¬ ('<' ∈ c.data ∧ '>' ∈ c.data) →
        create_file_content r = create_frontmatter r ++ "\n\n" ++ c ∧
        get_file_extension r = "md"))) ∧
    (∀ r : ContentData, r.content_type = "aphorisms" →
      get_file_extension r = "md") := by
  constructor
  · intro r c hct hc
    have hne : r.content_type ≠ "aphorisms" := by
      rcases hct with h | h <;> simp [h]
    constructor
    · intro hlt
      constructor
      · simp [create_file_content, hne, hc, hlt.1, hlt.2, importMid,
          String.append_assoc]
      · simp [get_file_extension, hc, hlt.1, hlt.2, hne]
    · intro hlt
      constructor
      · simp only [create_file_content, hc, Option.getD_some, if_neg hne]
        rw [if_neg]
        simp only [Bool.and_eq_true, List.elem_iff]
        exact fun h => hlt h
      · simp only [get_file_extension, hc, Option.getD_some]
        rw [if_neg]
        simp only [Bool.and_eq_true, List.elem_iff]
        exact fun h => hlt ⟨h.1.1, h.1.2⟩
  · intro r h
    simp [get_file_extension, h]

/-- C6: an aphorism file body is the frontmatter block alone, whose
mapping holds the content string and the date; the scenario record with
content "Be kind always" is named be-kind-always.md and its body is the
bare frontmatter block. -/
theorem c6_aphorism_body :
    (∀ r : ContentData, r.content_type = "aphorisms" →
      create_file_content r = create_frontmatter r ∧
      ("content", valOfOptStr r.content) ∈ fmEntries r ∧
      ("date", Val.str r.date) ∈ fmEntries r) ∧
    generate_filename aphorismEx = "be-kind-always.md" ∧
    get_full_filename aphorismEx = "be-kind-always.md" ∧
    create_file_content aphorismEx =
      "---\ncontent: Be kind always\ndate: 2025-01-02\n---" := by
  refine ⟨?_, by decide, by decide, by decide⟩
  intro r h
  refine ⟨by simp [create_file_content, h], ?_, ?_⟩
  · simp [fmEntries, h]
  · simp [fmEntries, h]

/-- C8: a git failure in the pull, stage, commit, push sequence makes
commit_and_push return false (the error is caught, never re-raised), it
returns true exactly when every attempted operation succeeds, and
confirm_submission returns ConversationHandler.END whatever the publish
outcome, with partial success reported as saved-locally and a hard error
shown verbatim. -/
theorem c8_publish_failure_handling :
    (∀ (e : String) (stage commitOp push : GitRes) (tok : String),
      commit_and_push (GitRes.gitErr e) stage commitOp push tok = false) ∧
    (∀ (pull stage commitOp push : GitRes) (tok : String),
      commit_and_push pull stage commitOp push tok = true ↔
        (pull = GitRes.ok ∧ stage = GitRes.ok ∧ commitOp = GitRes.ok ∧
          (tok = "" ∨ push = GitRes.ok))) ∧
    (∀ (q : String) (o : PublishOutcome) (f : String),
      (confirm_submission q o f).2 = END) ∧
    (∀ f : String,
      (confirm_submission "confirm" PublishOutcome.savedLocally f).1 =
        "✅ Content saved locally, but there was an issue pushing to the repository.\nFile: "
          ++ f) ∧
    (∀ (f e : String),
      (confirm_submission "confirm" (PublishOutcome.raised e) f).1 =
        "❌ There was an error saving your content: " ++ e) := by
  refine ⟨fun _ _ _ _ _ => rfl, ?_, ?_, ?_, ?_⟩
  · intro pull stage commitOp push tok
    cases pull <;> cases stage <;> cases commitOp <;> cases push <;>
      by_cases ht : tok = "" <;> simp [commit_and_push, ht]
  · intro q o f
    by_cases hq : q = "cancel" <;> cases o <;> simp [confirm_submission, hq, END]
  · intro f
    simp [confirm_submission]
  · intro f e
    simp [confirm_submission]

/-- C9: the read-time handler accepts "0" and negative literals, storing
the non-positive value and advancing to the content state, yet an essay
record whose read time is 0 is never complete and its frontmatter omits
the readTime key — positivity is not enforced at input time. -/
theorem c9_zero_read_time :
    pyInt "0" = some 0 ∧
    (∀ r : ContentData, read_time_entered r "0" =
      ({ r with read_time := some 0 }, some 3)) ∧
    pyInt "-3" = some (-3) ∧
    (∀ r : ContentData, read_time_entered r "-3" =
      ({ r with read_time := some (-3) }, some 3)) ∧
    (∀ r : ContentData, r.content_type = "essays" → r.read_time = some 0 →
      is_complete r = false ∧
      (fmEntries r).all (fun p => p.1 != "readTime") = true) := by
  refine ⟨by decide, ?_, by decide, ?_, ?_⟩
  · intro r
    simp [read_time_entered, show pyInt "0" = some 0 from by decide, stateConst]
  · intro r
    simp [read_time_entered, show pyInt "-3" = some (-3) from by decide,
      stateConst]
  · intro r h1 h2
    constructor
    · simp [is_complete, REQUIRED_FIELDS, h1, h2, truthyInt]
    · simp only [fmEntries, h1, h2, List.all_append]
      split_ifs <;> simp_all [truthyInt]

/-- C10 counterexample: for the blog record whose title is "!!!" the
generated name is ".md" as the claim says, but get_full_filename yields
".md.md", which is neither ".md" nor ".mdx". -/
theorem c10_counterexample :
    generate_filename blogBangTitle = ".md" ∧
    get_full_filename blogBangTitle = ".md.md" ∧
    (".md.md" : String) ≠ ".md" ∧ (".md.md" : String) ≠ ".mdx" := by decide

/-- C10 amended: for a blog or essay record whose title slugs to the
empty string, generate_filename returns the bare ".md" and
get_full_filename returns ".md." followed by the computed extension
(".md.md" or ".md.mdx"), because splitext finds no extension in a
leading-dot name; no fallback name is substituted. -/
theorem c10_empty_slug_filename :
    ∀ r : ContentData, (r.content_type = "blog" ∨ r.content_type = "essays") →
      slugify (r.title.getD "") = "" →
      generate_filename r = ".md" ∧
      get_full_filename r = ".md." ++ get_file_extension r ∧
      (get_file_extension r = "md" ∨ get_file_extension r = "mdx") := by
  intro r hct hslug
  have hb : (r.content_type = "blog" || r.content_type = "essays") = true := by
    rcases hct with h | h <;> simp [h]
  have h1 : generate_filename r = ".md" := by
    simp [generate_filename, hb, hslug]
  refine ⟨h1, ?_, ?_⟩
  · simp only [get_full_filename, h1]
    rw [show (String.mk (splitextRootChars (".md" : String).data) ++ "." :
      String) = ".md." from by decide]
  · by_cases hx : ((r.content.getD "").data.contains '<' &&
        (r.content.getD "").data.contains '>' &&
        r.content_type != "aphorisms") = true
    · right; simp [get_file_extension]; simp at hx; tauto
    · left; simp [get_file_extension]; simp at hx; tauto

/-- C10 amended, witnessed at the "!!!" blog record. -/
theorem c10_empty_slug_filename_witness :
    get_full_filename blogBangTitle =
      ".md." ++ get_file_extension blogBangTitle :=
  (c10_empty_slug_filename blogBangTitle (Or.inl (by decide))
    (by decide)).2.1

/-- C2, witnessed at the finished essay record. -/
theorem c2_is_complete_iff_witness :
    is_complete essayEx = true ↔
      ((REQUIRED_FIELDS essayEx.content_type).all (fieldPopulated essayEx) =
        true ∧ truthyStr essayEx.content = true) :=
  c2_is_complete_iff.1 essayEx (by decide)

/-- C4, witnessed at a skip input. -/
theorem c4_tags_entered_witness :
    tags_entered { content_type := "blog" } "SKIP" =
      ({ content_type := "blog" }, some 5) :=
  c4_tags_entered.1 { content_type := "blog" } "SKIP" (by decide)

/-- C5, witnessed at the angle-bracket blog record. -/
theorem c5_mdx_heuristic_witness :
    create_file_content blogMdxEx =
      create_frontmatter blogMdxEx ++ "\n\n" ++ importLine1 ++
        "\n" ++ importLine2 ++ "\n\n" ++ "<Summary/> hi" ∧
    get_file_extension blogMdxEx = "mdx" :=
  ((c5_mdx_heuristic.1 blogMdxEx "<Summary/> hi" (Or.inl rfl) rfl).1
    (by constructor <;> decide))

/-- C6, witnessed at the scenario aphorism record. -/
theorem c6_aphorism_body_witness :
    create_file_content aphorismEx = create_frontmatter aphorismEx :=
  ((c6_aphorism_body.1 aphorismEx rfl).1)

/-- C9, witnessed at the essay record with read time 0. -/
theorem c9_zero_read_time_witness :
    is_complete essayZeroRead = false ∧
    (fmEntries essayZeroRead).all (fun p => p.1 != "readTime") = true :=
  c9_zero_read_time.2.2.2.2 essayZeroRead rfl rfl

/-! ## Decimal printing lemmas -/

theorem natCharsAux_mono (n : Nat) :
    ∀ f1 f2, n < f1 → n < f2 → natCharsAux f1 n = natCharsAux f2 n := by
  induction n using Nat.strong_induction_on with
  | _ n ih =>
    intro f1 f2 h1 h2
    cases f1 with
    | zero => omega
    | succ f1 =>
      cases f2 with
      | zero => omega
      | succ f2 =>
        simp only [natCharsAux]
        by_cases hn : n < 10
        · simp [hn]
        · have hd : n / 10 < n := Nat.div_lt_self (by omega) (by omega)
          simp only [hn, if_false]
          rw [ih (n / 10) hd f1 f2 (by omega) (by omega)]

theorem natChars_eq (n : Nat) :
    natChars n = if n < 10 then [Char.ofNat (48 + n)]
      else natChars (n / 10) ++ [Char.ofNat (48 + n % 10)] := by
  show natCharsAux (n + 1) n = _
  simp only [natCharsAux]
  by_cases hn : n < 10
  · simp [hn]
  · have hd : n / 10 < n := Nat.div_lt_self (by omega) (by omega)
    simp only [hn, if_false]
    rw [natCharsAux_mono (n / 10) n (n / 10 + 1) (by omega) (by omega)]
    rfl

theorem digit_char_isDigit (d : Nat) (h : d < 10) :
    (Char.ofNat (48 + d)).isDigit = true := by
  interval_cases d <;> decide

theorem digit_char_toNat (d : Nat) (h : d < 10) :
    (Char.ofNat (48 + d)).toNat = 48 + d := by
  interval_cases d <;> decide

theorem natChars_ne_nil (n : Nat) : natChars n ≠ [] := by
  rw [natChars_eq]
  by_cases hn : n < 10 <;> simp [hn]

theorem natChars_all_digits (n : Nat) :
    ∀ c ∈ natChars n, c.isDigit = true := by
  induction n using Nat.strong_induction_on with
  | _ n ih =>
    intro c hc
    rw [natChars_eq] at hc
    by_cases hn : n < 10
    · rw [if_pos hn] at hc
      simp at hc
      subst hc
      exact digit_char_isDigit n hn
    · rw [if_neg hn] at hc
      have hd : n / 10 < n := Nat.div_lt_self (by omega) (by omega)
      rcases List.mem_append.mp hc with h | h
      · exact ih (n / 10) hd c h
      · simp at h
        subst h
        exact digit_char_isDigit (n % 10) (Nat.mod_lt _ (by omega))

theorem digitsVal_append_digit (l : List Char) (c : Char) :
    digitsVal (l ++ [c]) = digitsVal l * 10 + (c.toNat - 48) := by
  simp [digitsVal, List.foldl_append]

theorem digitsVal_natChars (n : Nat) : digitsVal (natChars n) = n := by
  induction n using Nat.strong_induction_on with
  | _ n ih =>
    rw [natChars_eq]
    by_cases hn : n < 10
    · rw [if_pos hn]
      simp [digitsVal, digit_char_toNat n hn]
    · have hd : n / 10 < n := Nat.div_lt_self (by omega) (by omega)
      rw [if_neg hn, digitsVal_append_digit, ih (n / 10) hd,
        digit_char_toNat (n % 10) (Nat.mod_lt _ (by omega))]
      omega

theorem natChars_head_digit (n : Nat) :
    ∃ c cs, natChars n = c :: cs ∧ c.isDigit = true := by
  rcases hl : natChars n with _ | ⟨c, cs⟩
  · exact absurd hl (natChars_ne_nil n)
  · exact ⟨c, cs, rfl, natChars_all_digits n c (by simp [hl])⟩

theorem scalarVal_intChars (n : Int) : scalarVal (intChars n) = Val.int n := by
  by_cases hn : n < 0
  · have hi : intChars n = '-' :: natChars n.natAbs := by simp [intChars, hn]
    rw [hi]
    obtain ⟨c, cs, hl, hcd⟩ := natChars_head_digit n.natAbs
    have hnn : ('-' :: natChars n.natAbs) ≠ ['n', 'u', 'l', 'l'] := by
      intro h
      rw [List.cons_eq_cons] at h
      exact absurd h.1 (by decide)
    have hshape : isIntShaped ('-' :: natChars n.natAbs) = true := by
      simp [isIntShaped, natChars_ne_nil n.natAbs]
      exact natChars_all_digits n.natAbs
    rw [scalarVal, if_neg hnn, if_pos hshape, if_pos (by simp)]
    simp only [List.tail_cons, digitsVal_natChars]
    congr 1
    omega
  · have hi : intChars n = natChars n.toNat := by simp [intChars, hn]
    rw [hi]
    obtain ⟨c, cs, hl, hcd⟩ := natChars_head_digit n.toNat
    have hnn : natChars n.toNat ≠ ['n', 'u', 'l', 'l'] := by
      intro h
      have : ('n' : Char).isDigit = true :=
        natChars_all_digits n.toNat 'n' (by simp [h])
      exact absurd this (by decide)
    have hshape : isIntShaped (natChars n.toNat) = true := by
      simp [isIntShaped, natChars_ne_nil n.toNat]
      exact Or.inr (natChars_all_digits n.toNat)
    have hhd : (natChars n.toNat).head? ≠ some '-' := by
      rw [hl]
      intro h
      simp at h
      subst h
      exact absurd hcd (by decide)
    rw [scalarVal, if_neg hnn, if_pos hshape, if_neg hhd, digitsVal_natChars]
    congr 1
    omega

/-! ## Line-level parsing lemmas -/

theorem takeWhile_colon (l m : List Char) (h : ':' ∉ l) :
    (l ++ ':' :: m).takeWhile (fun c => c != ':') = l := by
  induction l with
  | nil => simp
  | cons a as ih =>
    have ha : a ≠ ':' := fun hh => h (by simp [hh])
    simp only [List.cons_append, List.takeWhile_cons]
    simp [ha, ih (fun hh => h (by simp [hh]))]

theorem dropWhile_colon (l m : List Char) (h : ':' ∉ l) :
    (l ++ ':' :: m).dropWhile (fun c => c != ':') = ':' :: m := by
  induction l with
  | nil => simp
  | cons a as ih =>
    have ha : a ≠ ':' := fun hh => h (by simp [hh])
    simp only [List.cons_append, List.dropWhile_cons]
    simp [ha, ih (fun hh => h (by simp [hh]))]

theorem keyOK_no_colon (k : String) (hk : keyOKB k = true) : ':' ∉ k.data := by
  simp [keyOKB, Bool.and_eq_true] at hk
  exact hk.1.1.2

theorem keyOK_head (k : String) (hk : keyOKB k = true) :
    ∃ c cs, k.data = c :: cs ∧ c ≠ '-' := by
  simp [keyOKB, Bool.and_eq_true] at hk
  have hne : k.data ≠ [] := by
    intro h0
    exact hk.1.1.1 (String.ext h0)
  rcases hd : k.data with _ | ⟨c, cs⟩
  · exact absurd hd hne
  · refine ⟨c, cs, rfl, ?_⟩
    intro hc
    subst hc
    have := hk.2
    rw [hd] at this
    simp at this

theorem parseLine_scalar (k : String) (v : List Char) (hk : keyOKB k = true) :
    parseLine (k.data ++ ':' :: ' ' :: v) = PLine.scalar k (scalarVal v) := by
  have hnc := keyOK_no_colon k hk
  simp only [parseLine, takeWhile_colon k.data (' ' :: v) hnc,
    dropWhile_colon k.data (' ' :: v) hnc]

theorem parseLine_listStart (k : String) (hk : keyOKB k = true) :
    parseLine (k.data ++ [':']) = PLine.listStart k := by
  have hnc := keyOK_no_colon k hk
  simp only [parseLine, takeWhile_colon k.data [] hnc,
    dropWhile_colon k.data [] hnc]

theorem isItem_cons_ne (c : Char) (t : List Char) (h : c ≠ '-') :
    isItem (c :: t) = false := by
  cases t <;> simp [isItem, h]

theorem isItem_key_line (k : String) (t : List Char) (hk : keyOKB k = true) :
    isItem (k.data ++ t) = false := by
  obtain ⟨c, cs, hd, hc⟩ := keyOK_head k hk
  rw [hd, List.cons_append]
  exact isItem_cons_ne c (cs ++ t) hc

theorem key_line_ne_dashes (k : String) (t : List Char) (hk : keyOKB k = true) :
    ((k.data ++ t) != ['-', '-', '-']) = true := by
  obtain ⟨c, cs, hd, hc⟩ := keyOK_head k hk
  rw [hd, List.cons_append]
  simp [hc]

theorem takeWhile_append_all {α : Type} (p : α → Bool) (a b : List α)
    (h : ∀ x ∈ a, p x = true) :
    (a ++ b).takeWhile p = a ++ b.takeWhile p := by
  induction a with
  | nil => simp
  | cons x xs ih =>
    simp only [List.cons_append, List.takeWhile_cons, h x (by simp)]
    simp [ih (fun y hy => h y (by simp [hy]))]

theorem dropWhile_append_all {α : Type} (p : α → Bool) (a b : List α)
    (h : ∀ x ∈ a, p x = true) :
    (a ++ b).dropWhile p = b.dropWhile p := by
  induction a with
  | nil => simp
  | cons x xs ih =>
    simp only [List.cons_append, List.dropWhile_cons, h x (by simp)]
    simp [ih (fun y hy => h y (by simp [hy]))]

/-! ## Block-level parsing lemmas -/

theorem parseAux_items (k : String) (xs : List String) :
    ∀ (acc : List String) (rest : List (List Char)),
      (rest = [] ∨ ∃ y ys, rest = y :: ys ∧ isItem y = false) →
      parseAux (some (k, acc))
          (xs.map (fun x => '-' :: ' ' :: x.data) ++ rest) =
        (parseAux none rest).map
          (fun r => (k, Val.list (acc.reverse ++ xs)) :: r) := by
  induction xs with
  | nil =>
    intro acc rest hrest
    rcases hrest with h | ⟨y, ys, hy, hni⟩
    · subst h
      simp [parseAux, flushP]
    · subst hy
      simp only [List.map_nil, List.nil_append]
      simp only [parseAux, hni, Bool.false_eq_true, if_false]
      cases hpl : parseLine y with
      | scalar k2 v =>
        cases parseAux none ys <;> simp [flushP]
      | listStart k2 =>
        cases parseAux (some (k2, [])) ys <;> simp [flushP]
      | bad => simp
  | cons x xs ih =>
    intro acc rest hrest
    simp only [List.map_cons, List.cons_append]
    have hit : isItem ('-' :: ' ' :: x.data) = true := by simp [isItem]
    simp only [parseAux, hit, if_true, itemStr, List.drop_succ_cons,
      List.drop_zero]
    rw [ih (x :: acc) rest hrest]
    simp [List.append_assoc]

theorem dumpEntries_head_not_item (ps : List (String × Val))
    (h : wfEntriesB ps = true) :
    dumpEntries ps = [] ∨
      ∃ y ys, dumpEntries ps = y :: ys ∧ isItem y = false := by
  cases ps with
  | nil => exact Or.inl rfl
  | cons p ps =>
    obtain ⟨k, v⟩ := p
    have hp : wfPairB (k, v) = true := by
      simp [wfEntriesB] at h
      exact h.1
    have hk : keyOKB k = true := by
      cases v <;> simp [wfPairB, Bool.and_eq_true] at hp <;> tauto
    right
    cases v with
    | str s =>
      exact ⟨_, _, rfl, isItem_key_line k _ hk⟩
    | int n =>
      exact ⟨_, _, rfl, isItem_key_line k _ hk⟩
    | null =>
      exact ⟨_, _, rfl, isItem_key_line k _ hk⟩
    | list xs =>
      exact ⟨_, _, rfl, isItem_key_line k _ hk⟩

theorem parseFM_dumpEntries (ps : List (String × Val))
    (h : wfEntriesB ps = true) : parseFM (dumpEntries ps) = some ps := by
  show parseAux none (dumpEntries ps) = some ps
  induction ps with
  | nil => rfl
  | cons p ps ih =>
    obtain ⟨k, v⟩ := p
    have hp : wfPairB (k, v) = true := by
      simp [wfEntriesB] at h
      exact h.1
    have hps : wfEntriesB ps = true := by
      simp [wfEntriesB] at h ⊢
      exact h.2
    have hk : keyOKB k = true := by
      cases v <;> simp [wfPairB, Bool.and_eq_true] at hp <;> tauto
    have ihps := ih hps
    cases v with
    | str s =>
      have hplain : plainScalarB s = true := by
        simp [wfPairB, Bool.and_eq_true] at hp
        exact hp.2
      have hsv : scalarVal s.data = Val.str s := by
        simp [plainScalarB, Bool.and_eq_true] at hplain
        obtain ⟨⟨hnl, hnull⟩, hshape⟩ := hplain
        have h1 : ¬ s.data = ['n', 'u', 'l', 'l'] :=
          fun h0 => hnull (String.ext h0)
        have h2 : ¬ isIntShaped s.data = true := by simp [hshape]
        rw [scalarVal, if_neg h1, if_neg h2]
      show parseAux none ((k.data ++ ':' :: ' ' :: s.data) :: dumpEntries ps) =
        some ((k, Val.str s) :: ps)
      simp only [parseAux, isItem_key_line k _ hk, Bool.false_eq_true,
        if_false, parseLine_scalar k s.data hk, hsv, ihps]
      simp [flushP]
    | int n =>
      show parseAux none ((k.data ++ ':' :: ' ' :: intChars n) :: dumpEntries ps) =
        some ((k, Val.int n) :: ps)
      simp only [parseAux, isItem_key_line k _ hk, Bool.false_eq_true,
        if_false, parseLine_scalar k (intChars n) hk, scalarVal_intChars, ihps]
      simp [flushP]
    | null =>
      show parseAux none
          ((k.data ++ ':' :: ' ' :: ['n', 'u', 'l', 'l']) :: dumpEntries ps) =
        some ((k, Val.null) :: ps)
      simp only [parseAux, isItem_key_line k _ hk, Bool.false_eq_true,
        if_false, parseLine_scalar k ['n', 'u', 'l', 'l'] hk,
        show scalarVal ['n', 'u', 'l', 'l'] = Val.null from by decide, ihps]
      simp [flushP]
    | list xs =>
      show parseAux none
          ((k.data ++ [':']) :: (xs.map (fun x => '-' :: ' ' :: x.data) ++
            dumpEntries ps)) =
        some ((k, Val.list xs) :: ps)
      simp only [parseAux, isItem_key_line k _ hk, Bool.false_eq_true,
        if_false, parseLine_listStart k hk]
      rw [parseAux_items k xs [] (dumpEntries ps)
        (dumpEntries_head_not_item ps hps)]
      simp [ihps, flushP]

/-! ## Line-splitting lemmas -/

theorem foldr_splitStep (a x : List Char) (rest : List (List Char))
    (h : '\n' ∉ a) :
    a.foldr splitStep (x :: rest) = (a ++ x) :: rest := by
  induction a with
  | nil => rfl
  | cons c cs ih =>
    have hc : ¬ c = '\n' := fun hh => h (by simp [hh])
    rw [List.foldr_cons, ih (fun hh => h (by simp [hh]))]
    simp [splitStep, hc]

theorem splitLinesC_append (a b : List Char) (h : '\n' ∉ a) :
    splitLinesC (a ++ '\n' :: b) = a :: splitLinesC b := by
  show (a ++ '\n' :: b).foldr splitStep [[]] = a :: splitLinesC b
  rw [List.foldr_append, List.foldr_cons,
    show splitStep '\n' (b.foldr splitStep [[]]) =
      [] :: splitLinesC b from by simp [splitStep, splitLinesC],
    foldr_splitStep a [] (splitLinesC b) h]
  simp

theorem splitLinesC_no_newline (a : List Char) (h : '\n' ∉ a) :
    splitLinesC a = [a] := by
  show a.foldr splitStep ([] :: []) = [a]
  rw [foldr_splitStep a [] [] h]
  simp

theorem splitLinesC_join (lines : List (List Char)) (rest : List Char)
    (h : ∀ l ∈ lines, '\n' ∉ l) :
    splitLinesC (joinLinesC lines ++ rest) = lines ++ splitLinesC rest := by
  induction lines with
  | nil => simp [joinLinesC]
  | cons l ls ih =>
    simp only [joinLinesC, List.append_assoc, List.cons_append]
    rw [splitLinesC_append l _ (h l (by simp)),
      ih (fun x hx => h x (by simp [hx]))]

theorem extract_body (D : List (List Char)) (rest : List Char)
    (hD2 : ∀ l ∈ D, (l != ['-', '-', '-']) = true)
    (hD1 : ∀ l ∈ D, '\n' ∉ l)
    (hrest : rest = [] ∨ ∃ r2, rest = '\n' :: r2) :
    extractLines (splitLinesC
      ('-' :: '-' :: '-' :: '\n' ::
        (joinLinesC D ++ ('-' :: '-' :: '-' :: rest)))) = D := by
  rw [show ('-' :: '-' :: '-' :: '\n' ::
      (joinLinesC D ++ ('-' :: '-' :: '-' :: rest)) : List Char) =
      ['-', '-', '-'] ++ '\n' :: (joinLinesC D ++ ('-' :: '-' :: '-' :: rest))
      from rfl,
    splitLinesC_append _ _ (by decide),
    splitLinesC_join D _ hD1]
  simp only [extractLines, if_pos rfl]
  rcases hrest with h | ⟨r2, h⟩
  · subst h
    rw [show splitLinesC ('-' :: '-' :: '-' :: ([] : List Char)) =
        [['-', '-', '-']] from by decide,
      takeWhile_append_all _ D _ hD2]
    simp
  · subst h
    rw [show ('-' :: '-' :: '-' :: '\n' :: r2 : List Char) =
        ['-', '-', '-'] ++ '\n' :: r2 from rfl,
      splitLinesC_append _ _ (by decide),
      takeWhile_append_all _ D _ hD2]
    simp

/-! ## Dump side conditions -/

theorem dumpVal_no_newline (k : String) (v : Val) (h : wfPairB (k, v) = true) :
    ∀ l ∈ dumpVal k v, '\n' ∉ l := by
  have hk : keyOKB k = true := by
    cases v <;> simp [wfPairB, Bool.and_eq_true] at h <;> tauto
  have hkd : '\n' ∉ k.data := by
    simp [keyOKB, Bool.and_eq_true] at hk
    exact hk.1.2
  cases v with
  | str s =>
    have hs : '\n' ∉ s.data := by
      simp [wfPairB, plainScalarB, Bool.and_eq_true] at h
      exact h.2.1.1
    intro l hl
    simp [dumpVal] at hl
    subst hl
    simp [hkd, hs]
  | int n =>
    intro l hl
    simp [dumpVal] at hl
    subst hl
    have hin : '\n' ∉ intChars n := by
      intro hmem
      have hd : ('\n' : Char).isDigit = true ∨ ('\n' : Char) = '-' := by
        by_cases hn : n < 0
        · rw [intChars, if_pos hn] at hmem
          rcases List.mem_cons.mp hmem with h0 | h0
          · exact Or.inr h0
          · exact Or.inl (natChars_all_digits _ _ h0)
        · rw [intChars, if_neg hn] at hmem
          exact Or.inl (natChars_all_digits _ _ hmem)
      rcases hd with h0 | h0 <;> exact absurd h0 (by decide)
    simp [hkd, hin]
  | null =>
    intro l hl
    simp [dumpVal] at hl
    subst hl
    simp [hkd]
  | list xs =>
    have hxs : ∀ x ∈ xs, itemOKB x = true := by
      simp [wfPairB, Bool.and_eq_true] at h
      exact h.2
    intro l hl
    simp [dumpVal] at hl
    rcases hl with hl | ⟨x, hx, hl⟩
    · subst hl
      simp [hkd]
    · subst hl
      have hx2 := hxs x hx
      simp [itemOKB] at hx2
      simp [hx2]

theorem dumpEntries_no_newline (ps : List (String × Val))
    (h : wfEntriesB ps = true) : ∀ l ∈ dumpEntries ps, '\n' ∉ l := by
  induction ps with
  | nil => simp [dumpEntries]
  | cons p ps ih =>
    obtain ⟨k, v⟩ := p
    simp only [wfEntriesB, List.all_cons, Bool.and_eq_true] at h
    intro l hl
    simp only [dumpEntries] at hl
    rcases List.mem_append.mp hl with h0 | h0
    · exact dumpVal_no_newline k v h.1 l h0
    · exact ih h.2 l h0

theorem dumpVal_ne_dashes (k : String) (v : Val) (h : wfPairB (k, v) = true) :
    ∀ l ∈ dumpVal k v, (l != ['-', '-', '-']) = true := by
  have hk : keyOKB k = true := by
    cases v <;> simp [wfPairB, Bool.and_eq_true] at h <;> tauto
  cases v with
  | str s =>
    intro l hl
    simp [dumpVal] at hl
    subst hl
    exact key_line_ne_dashes k _ hk
  | int n =>
    intro l hl
    simp [dumpVal] at hl
    subst hl
    exact key_line_ne_dashes k _ hk
  | null =>
    intro l hl
    simp [dumpVal] at hl
    subst hl
    exact key_line_ne_dashes k _ hk
  | list xs =>
    intro l hl
    simp [dumpVal] at hl
    rcases hl with hl | ⟨x, _, hl⟩
    · subst hl
      exact key_line_ne_dashes k _ hk
    · subst hl
      simp

theorem dumpEntries_ne_dashes (ps : List (String × Val))
    (h : wfEntriesB ps = true) :
    ∀ l ∈ dumpEntries ps, (l != ['-', '-', '-']) = true := by
  induction ps with
  | nil => simp [dumpEntries]
  | cons p ps ih =>
    obtain ⟨k, v⟩ := p
    simp only [wfEntriesB, List.all_cons, Bool.and_eq_true] at h
    intro l hl
    simp only [dumpEntries] at hl
    rcases List.mem_append.mp hl with h0 | h0
    · exact dumpVal_ne_dashes k v h.1 l h0
    · exact ih h.2 l h0

/-! ## Well-formedness of the generated mapping -/

theorem fmEntries_wf (r : ContentData) (h : recordWF r = true) :
    wfEntriesB (fmEntries r) = true := by
  simp only [recordWF, Bool.and_eq_true] at h
  obtain ⟨⟨⟨⟨hdate, htitle⟩, hdesc⟩, hcont⟩, htags⟩ := h
  simp only [wfEntriesB, fmEntries, List.all_append, Bool.and_eq_true]
  refine ⟨⟨⟨⟨⟨?_, ?_⟩, ?_⟩, ?_⟩, ?_⟩, ?_⟩
  · by_cases hA : r.content_type = "aphorisms"
    · rw [if_pos hA] at hcont ⊢
      cases hc : r.content with
      | none =>
        simp [valOfOptStr, wfPairB]
        decide
      | some c =>
        rw [hc] at hcont
        simp [optPlainB] at hcont
        simp [valOfOptStr, wfPairB, hcont]
        decide
    · simp [hA]
  · simp [wfPairB, hdate]
    decide
  · split_ifs with hB
    · cases hd : r.description with
      | none =>
        rw [hd] at hB
        simp [truthyStr] at hB
      | some d =>
        rw [hd] at hdesc
        simp [optPlainB] at hdesc
        simp [wfPairB, hdesc,
          show keyOKB "description" = true from by decide]
    · rfl
  · split_ifs with hC
    · simp [wfPairB, show keyOKB "readTime" = true from by decide]
    · rfl
  · split_ifs with hD0
    · simp [wfPairB, htags, show keyOKB "tags" = true from by decide]
    · rfl
  · by_cases hE : (r.content_type = "blog" || r.content_type = "essays") = true
    · rw [if_pos hE]
      cases ht : r.title with
      | none =>
        simp [valOfOptStr, wfPairB]
        decide
      | some t =>
        rw [ht] at htitle
        simp [optPlainB] at htitle
        simp [valOfOptStr, wfPairB, htitle]
        decide
    · rw [if_neg hE]
      rfl

/-! ## Extraction of the generated body -/

theorem create_frontmatter_data (r : ContentData) :
    (create_frontmatter r).data =
      '-' :: '-' :: '-' :: '\n' ::
        (joinLinesC (dumpEntries (fmEntries r)) ++ ['-', '-', '-']) := by
  show (("---\n" ++ yamlDump (fmEntries r) ++ "---") : String).data = _
  rw [String.data_append, String.data_append,
    show ("---\n" : String).data = ['-', '-', '-', '\n'] from by decide,
    show ("---" : String).data = ['-', '-', '-'] from by decide]
  simp [yamlDump, List.append_assoc]

theorem extractFM_body (r : ContentData)
    (hD : wfEntriesB (fmEntries r) = true) :
    extractFM (create_file_content r) = dumpEntries (fmEntries r) := by
  have hD2 := dumpEntries_ne_dashes _ hD
  have hD1 := dumpEntries_no_newline _ hD
  unfold extractFM
  by_cases ha : r.content_type = "aphorisms"
  · have hb : create_file_content r = create_frontmatter r := by
      simp [create_file_content, ha]
    rw [hb, create_frontmatter_data]
    exact extract_body _ [] hD2 hD1 (Or.inl rfl)
  · by_cases hm : ((r.content.getD "").data.contains '<' &&
        (r.content.getD "").data.contains '>') = true
    · have hb : create_file_content r =
          create_frontmatter r ++ (importMid ++ r.content.getD "") := by
        simp only [create_file_content]
        rw [if_neg ha, if_pos hm, String.append_assoc]
      rw [hb, String.data_append, create_frontmatter_data]
      simp only [List.cons_append, List.append_assoc, List.nil_append]
      refine extract_body _ _ hD2 hD1 (Or.inr
        ⟨importMid.data.tail ++ (r.content.getD "").data, ?_⟩)
      rw [String.data_append,
        show importMid.data = '\n' :: importMid.data.tail from by decide]
      rfl
    · have hb : create_file_content r =
          create_frontmatter r ++ ("\n\n" ++ r.content.getD "") := by
        simp only [create_file_content]
        rw [if_neg ha, if_neg hm, String.append_assoc]
      rw [hb, String.data_append, create_frontmatter_data]
      simp only [List.cons_append, List.append_assoc, List.nil_append]
      refine extract_body _ _ hD2 hD1 (Or.inr
        ⟨'\n' :: (r.content.getD "").data, ?_⟩)
      rw [String.data_append,
        show ("\n\n" : String).data = ['\n', '\n'] from by decide]
      rfl

/-- C3: generating the file body and then extracting and parsing the
leading frontmatter block recovers exactly the entries of the fm_data
mapping, for every record whose field values stay in the plain-scalar
fragment the serializer model covers (no embedded newline, not the null
word, not integer-shaped). -/
theorem c3_frontmatter_round_trip (r : ContentData)
    (h : recordWF r = true) :
    parseFM (extractFM (create_file_content r)) = some (fmEntries r) := by
  rw [extractFM_body r (fmEntries_wf r h),
    parseFM_dumpEntries _ (fmEntries_wf r h)]

/-- C3, witnessed at the finished essay record. -/
theorem c3_frontmatter_round_trip_witness :
    parseFM (extractFM (create_file_content essayEx)) =
      some (fmEntries essayEx) :=
  c3_frontmatter_round_trip essayEx (by decide)

end ContentBot
